import Mathlib

/-!
Verification of the request routing and forwarding engine of the
claude-proxy-vscode extension (src/extension.ts), as a shallow embedding.

Strings manipulated character-wise by the source (chunk filtering, mapping
splitting, JSON bodies) are modelled as `List Char`; the helper `S` injects
Lean string literals.  JavaScript string operations used by the source
(`split`, `trim`, `startsWith`, `substring`, `toLowerCase`, `includes`) are
modelled by explicit functions below.  `JSON.parse` / `JSON.stringify` are
modelled by an executable parser/serializer over the `JVal` type; numeric
literals are modelled as integers (fractional and exponent forms are outside
the model and treated as parse failures), and `toLowerCase` is modelled on
ASCII letters.
-/

namespace ClaudeProxy

/-- Characters of a Lean string literal. -/
def S (s : String) : List Char :=
  s.data

/-- Model of JavaScript `str.split(sep)` for a one-character separator:
splits at every occurrence of `sep`, keeping empty segments (so the result
is never the empty list). -/
def splitOnChar (sep : Char) : List Char → List (List Char)
  | [] => [[]]
  | c :: cs =>
    if c = sep then [] :: splitOnChar sep cs
    else
      match splitOnChar sep cs with
      | [] => [[c]]
      | l :: ls => (c :: l) :: ls

/-- Model of JavaScript `Array.prototype.join(sep)` for a one-character
separator. -/
def joinWithChar (sep : Char) : List (List Char) → List Char
  | [] => []
  | [l] => l
  | l :: ls => l ++ sep :: joinWithChar sep ls

/-- Whitespace recognized by JavaScript `String.prototype.trim` (ASCII part,
which is all the source's inputs use). -/
def isJsWs (c : Char) : Bool :=
  c = ' ' || c = '\t' || c = '\n' || c = '\r' || c = '\x0b' || c = '\x0c'

/-- Model of JavaScript `str.trim()`. -/
def jsTrim (l : List Char) : List Char :=
  ((l.dropWhile isJsWs).reverse.dropWhile isJsWs).reverse

/-- Boolean substring test: model of JavaScript `str.includes(needle)`. -/
def containsSub (needle : List Char) : List Char → Bool
  | [] => needle.isEmpty
  | c :: cs => needle.isPrefixOf (c :: cs) || containsSub needle cs

/-- JSON values.  Object fields keep insertion order, as JavaScript objects
do.  Numbers are modelled as integers. -/
inductive JVal where
  | null
  | bool (b : Bool)
  | num (n : Int)
  | str (s : List Char)
  | arr (elems : List JVal)
  | obj (fields : List (List Char × JVal))

/-- Field lookup in an object field list (first occurrence). -/
def lookupKey : List (List Char × JVal) → List Char → Option JVal
  | [], _ => none
  | (k, v) :: fs, key => if k = key then some v else lookupKey fs key

/-- Set a field: replaces the value at the first occurrence of the key in
place, otherwise appends.  This is both JavaScript assignment
(`obj.k = v`) and `JSON.parse` duplicate-key semantics (last value wins,
key keeps its first position). -/
def setKey : List (List Char × JVal) → List Char → JVal → List (List Char × JVal)
  | [], key, v => [(key, v)]
  | (k, w) :: fs, key, v => if k = key then (key, v) :: fs else (k, w) :: setKey fs key v

/-- Model of JavaScript optional-chaining property access `v?.k`: `none`
plays the role of `undefined` (any access on a non-object yields it). -/
def jsGet (v : JVal) (key : List Char) : Option JVal :=
  match v with
  | .obj fs => lookupKey fs key
  | _ => none

/-- JavaScript truthiness of a JSON value. -/
def truthy : JVal → Bool
  | .null => false
  | .bool b => b
  | .num n => n ≠ 0
  | .str s => s ≠ []
  | .arr _ => true
  | .obj _ => true

/-- Model of `Object.keys(v).length` for the values that reach it in the
source (guarded there by a truthiness check, so `null` never reaches it):
objects count their fields, arrays their elements, strings their
characters, everything else has no enumerable keys. -/
def jsKeysLength : JVal → Nat
  | .obj fs => fs.length
  | .arr es => es.length
  | .str s => s.length
  | _ => 0

/-! ### JSON parser (model of `JSON.parse`) -/

/-- JSON insignificant whitespace. -/
def isJsonWs (c : Char) : Bool :=
  c = ' ' || c = '\t' || c = '\n' || c = '\r'

def skipWs (cs : List Char) : List Char :=
  cs.dropWhile isJsonWs

def hexDigitVal (c : Char) : Option Nat :=
  if '0' ≤ c ∧ c ≤ '9' then some (c.toNat - '0'.toNat)
  else if 'a' ≤ c ∧ c ≤ 'f' then some (c.toNat - 'a'.toNat + 10)
  else if 'A' ≤ c ∧ c ≤ 'F' then some (c.toNat - 'A'.toNat + 10)
  else none

/-- Single-character escapes of JSON strings. -/
def escVal (c : Char) : Option Char :=
  if c = '"' then some '"'
  else if c = '\\' then some '\\'
  else if c = '/' then some '/'
  else if c = 'b' then some '\x08'
  else if c = 'f' then some '\x0c'
  else if c = 'n' then some '\n'
  else if c = 'r' then some '\r'
  else if c = 't' then some '\t'
  else none

/-- Parse the body of a JSON string (after the opening quote); returns the
decoded characters and the rest of the input after the closing quote. -/
def parseStrBody : List Char → Option (List Char × List Char)
  | [] => none
  | '"' :: rest => some ([], rest)
  | '\\' :: 'u' :: h1 :: h2 :: h3 :: h4 :: rest => do
    let a ← hexDigitVal h1
    let b ← hexDigitVal h2
    let c ← hexDigitVal h3
    let d ← hexDigitVal h4
    let (s, r) ← parseStrBody rest
    let n := ((a * 16 + b) * 16 + c) * 16 + d
    if h : n.isValidChar then
      return (Char.ofNatAux n h :: s, r)
    else
      none
  | '\\' :: e :: rest => do
    let c ← escVal e
    let (s, r) ← parseStrBody rest
    return (c :: s, r)
  | c :: rest => do
    let (s, r) ← parseStrBody rest
    return (c :: s, r)

def isDigitCh (c : Char) : Bool :=
  '0' ≤ c ∧ c ≤ '9'

def digitsToNat (acc : Nat) : List Char → Nat
  | [] => acc
  | c :: cs => digitsToNat (acc * 10 + (c.toNat - '0'.toNat)) cs

/-- Parse a JSON integer literal (sign and digits, no leading zeros).
Fractional and exponent forms are outside this model and fail. -/
def parseNum (cs : List Char) : Option (JVal × List Char) :=
  let (neg, cs') := match cs with
    | '-' :: rest => (true, rest)
    | _ => (false, cs)
  let digs := cs'.takeWhile isDigitCh
  let rest := cs'.dropWhile isDigitCh
  if digs = [] then none
  else if digs.length > 1 ∧ digs.headD '0' = '0' then none
  else
    match rest with
    | '.' :: _ => none
    | 'e' :: _ => none
    | 'E' :: _ => none
    | _ =>
      let n : Int := Int.ofNat (digitsToNat 0 digs)
      some (.num (if neg then -n else n), rest)

mutual

/-- Fuel-indexed JSON value parser. -/
def parseVal : Nat → List Char → Option (JVal × List Char)
  | 0, _ => none
  | fuel + 1, cs =>
    match skipWs cs with
    | '\x7b' :: rest =>
      match skipWs rest with
      | '\x7d' :: r => some (.obj [], r)
      | r => parseMembers fuel r []
    | '[' :: rest =>
      match skipWs rest with
      | ']' :: r => some (.arr [], r)
      | r => parseElems fuel r []
    | '"' :: rest =>
      match parseStrBody rest with
      | some (s, r) => some (.str s, r)
      | none => none
    | 't' :: rest =>
      if (S "rue").isPrefixOf rest then some (.bool true, rest.drop 3) else none
    | 'f' :: rest =>
      if (S "alse").isPrefixOf rest then some (.bool false, rest.drop 4) else none
    | 'n' :: rest =>
      if (S "ull").isPrefixOf rest then some (.null, rest.drop 3) else none
    | other => parseNum other

/-- Parse the members of a JSON object after the opening brace (knowing the
object is non-empty), accumulating fields with duplicate-key replacement. -/
def parseMembers : Nat → List Char → List (List Char × JVal) →
    Option (JVal × List Char)
  | 0, _, _ => none
  | fuel + 1, cs, acc =>
    match skipWs cs with
    | '"' :: rest =>
      match parseStrBody rest with
      | none => none
      | some (k, r1) =>
        match skipWs r1 with
        | ':' :: r2 =>
          match parseVal fuel r2 with
          | none => none
          | some (v, r3) =>
            match skipWs r3 with
            | ',' :: r4 => parseMembers fuel r4 (setKey acc k v)
            | '\x7d' :: r4 => some (.obj (setKey acc k v), r4)
            | _ => none
        | _ => none
    | _ => none

/-- Parse the elements of a JSON array after the opening bracket (knowing
the array is non-empty). -/
def parseElems : Nat → List Char → List JVal → Option (JVal × List Char)
  | 0, _, _ => none
  | fuel + 1, cs, acc =>
    match parseVal fuel cs with
    | none => none
    | some (v, r1) =>
      match skipWs r1 with
      | ',' :: r2 => parseElems fuel r2 (acc ++ [v])
      | ']' :: r2 => some (.arr (acc ++ [v]), r2)
      | _ => none

end

/-- Model of `JSON.parse`: `none` models a thrown `SyntaxError`. -/
def jsonParse (cs : List Char) : Option JVal :=
  match parseVal (cs.length + 1) cs with
  | some (v, rest) => if skipWs rest = [] then some v else none
  | none => none

/-! ### JSON serializer (model of `JSON.stringify` with no indent argument) -/

/-- Decimal digits of a natural number. -/
def natToChars (n : Nat) : List Char :=
  Nat.toDigits 10 n

def intToChars (n : Int) : List Char :=
  if n < 0 then '-' :: natToChars n.natAbs else natToChars n.natAbs

def hex4 (n : Nat) : List Char :=
  let d := fun k => (Nat.toDigits 16 k).headD '0'
  [d (n / 4096 % 16), d (n / 256 % 16), d (n / 16 % 16), d (n % 16)]

/-- Escaping of one character inside a serialized JSON string. -/
def escapeChar (c : Char) : List Char :=
  if c = '"' then ['\\', '"']
  else if c = '\\' then ['\\', '\\']
  else if c = '\x08' then ['\\', 'b']
  else if c = '\x0c' then ['\\', 'f']
  else if c = '\n' then ['\\', 'n']
  else if c = '\r' then ['\\', 'r']
  else if c = '\t' then ['\\', 't']
  else if c.toNat < 32 then '\\' :: 'u' :: hex4 c.toNat
  else [c]

/-- Serialized form of a JSON string literal. -/
def strLit (s : List Char) : List Char :=
  '"' :: s.flatMap escapeChar ++ ['"']

mutual

/-- Model of `JSON.stringify(v)` (compact form: no spaces). -/
def stringify : JVal → List Char
  | .null => S "null"
  | .bool true => S "true"
  | .bool false => S "false"
  | .num n => intToChars n
  | .str s => strLit s
  | .arr es => '[' :: stringifyElems es ++ [']']
  | .obj fs => '\x7b' :: stringifyFields fs ++ ['\x7d']

def stringifyElems : List JVal → List Char
  | [] => []
  | [e] => stringify e
  | e :: es => stringify e ++ ',' :: stringifyElems es

def stringifyFields : List (List Char × JVal) → List Char
  | [] => []
  | [(k, v)] => strLit k ++ ':' :: stringify v
  | (k, v) :: fs => strLit k ++ ':' :: stringify v ++ ',' :: stringifyFields fs

end

/-! ## Model classification (`extractModelType`, extension.ts 228-235) -/

inductive ModelType where
  | haiku
  | main
deriving DecidableEq

/-- `extractModelType` from the source: lower-cases the model name and
checks for the substring `"haiku"`; everything else is `main`
(`toLowerCase` modelled on ASCII letters). -/
def extractModelType (modelName : List Char) : ModelType :=
  let lower := modelName.map Char.toLower
  if containsSub (S "haiku") lower then .haiku else .main

/-! ## Configuration and provider registry -/

/-- The per-provider slice of the `claudeProxy` configuration that
`getTargetConfig` reads (`providers.<name>.enabled` with default `false`,
`providers.<name>.apiKey` with default `""`); fields hold the values
`config.get` returns, defaults already applied. -/
structure ProviderSettings where
  enabled : Bool
  apiKey : List Char

/-- The `claudeProxy` configuration as read by the routing code. -/
structure Config where
  mappingsHaiku : List Char
  mappingsMain : List Char
  anthropic : ProviderSettings
  glm : ProviderSettings
  kimi : ProviderSettings
  minimax : ProviderSettings
  deepseek : ProviderSettings
  custom : ProviderSettings
  litellm : ProviderSettings
  cliproxyapi : ProviderSettings
  customBaseUrl : List Char
  litellmPort : Nat
  cliproxyapiPort : Nat

/-- `config.get('mappings.' + modelType, 'pass')`. -/
def mappingOf (cfg : Config) : ModelType → List Char
  | .haiku => cfg.mappingsHaiku
  | .main => cfg.mappingsMain

/-- The source's `authMethod` union type `'token' | 'x-api-key'`. -/
inductive AuthMethod where
  | token
  | xApiKey
deriving DecidableEq

/-- Result record of `getTargetConfig` (extension.ts 238-243): `model`,
`apiKey` and `authMethod` are optional exactly as in the source. -/
structure TargetConfig where
  endpoint : List Char
  model : Option (List Char)
  apiKey : Option (List Char)
  authMethod : Option AuthMethod
deriving DecidableEq

/-- The provider dispatch of `getTargetConfig` (extension.ts 255-396): the
if-chain over the provider name taken from the mapping's first segment,
with the destructured second segment as target model. -/
def providerTarget (cfg : Config) (provider : List Char)
    (targetModel : Option (List Char)) : Option TargetConfig :=
  if provider = S "anthropic" then
      if cfg.anthropic.enabled then
        some { endpoint := S "https://api.anthropic.com", model := targetModel,
               apiKey := some cfg.anthropic.apiKey, authMethod := some .xApiKey }
      else none
    else if provider = S "glm" then
      if cfg.glm.enabled then
        some { endpoint := S "https://open.bigmodel.cn/api/anthropic", model := targetModel,
               apiKey := some cfg.glm.apiKey, authMethod := some .xApiKey }
      else none
    else if provider = S "kimi" then
      if cfg.kimi.enabled then
        some { endpoint := S "https://api.moonshot.cn/anthropic", model := targetModel,
               apiKey := some cfg.kimi.apiKey, authMethod := some .xApiKey }
      else none
    else if provider = S "minimax" then
      if cfg.minimax.enabled then
        some { endpoint := S "https://api.minimaxi.com/anthropic", model := targetModel,
               apiKey := some cfg.minimax.apiKey, authMethod := some .xApiKey }
      else none
    else if provider = S "deepseek" then
      if cfg.deepseek.enabled then
        some { endpoint := S "https://api.deepseek.com/anthropic", model := targetModel,
               apiKey := some cfg.deepseek.apiKey, authMethod := some .xApiKey }
      else none
    else if provider = S "custom" then
      if cfg.custom.enabled then
        some { endpoint := cfg.customBaseUrl, model := targetModel,
               apiKey := some cfg.custom.apiKey, authMethod := some .xApiKey }
      else none
    else if provider = S "litellm" then
      if cfg.litellm.enabled then
        some { endpoint := S "http://127.0.0.1:" ++ natToChars cfg.litellmPort,
               model := targetModel,
               apiKey := if cfg.litellm.apiKey = [] then none else some cfg.litellm.apiKey,
               authMethod := if cfg.litellm.apiKey = [] then none else some .token }
      else none
    else if provider = S "cliproxyapi" then
      if cfg.cliproxyapi.enabled then
        some { endpoint := S "http://127.0.0.1:" ++ natToChars cfg.cliproxyapiPort,
               model := targetModel,
               apiKey := if cfg.cliproxyapi.apiKey = [] then none else some cfg.cliproxyapi.apiKey,
               authMethod := if cfg.cliproxyapi.apiKey = [] then none else some .token }
      else none
    else none

/-- `getTargetConfig` (extension.ts 238-397): resolves a model class to a
provider target via the configured mapping string.  `'pass'` resolves to
nothing; otherwise the mapping is split with `mapping.split(':')`,
destructured into its first two segments, and dispatched on the provider
name. -/
def getTargetConfig (cfg : Config) (modelType : ModelType) : Option TargetConfig :=
  if mappingOf cfg modelType = S "pass" then none
  else
    providerTarget cfg ((splitOnChar ':' (mappingOf cfg modelType)).headD [])
      ((splitOnChar ':' (mappingOf cfg modelType))[1]?)

/-- The `targetHeaders` auth block of the request handler (extension.ts
862-869): `if (targetConfig.apiKey)` is JavaScript truthiness, so an
absent or empty credential attaches nothing. -/
def buildAuthHeaders (tc : TargetConfig) : List (List Char × List Char) :=
  match tc.apiKey with
  | some k =>
    if k = [] then []
    else
      match tc.authMethod with
      | some .xApiKey => [(S "x-api-key", k)]
      | some .token => [(S "authorization", S "Bearer " ++ k)]
      | none => []
  | none => []

/-! ## Stream filter (`filterLiteLLMChunk`, extension.ts 657-713) -/

/-- The payload test of the filter: does a parsed `data:` payload describe
a `content_block` that is an empty `tool_use` (truthy `input` with zero
keys) or an empty `text` block? -/
def dropCondition (data : JVal) : Bool :=
  match jsGet data (S "content_block") with
  | some cb =>
    ((match jsGet cb (S "type") with
      | some (.str t) => t = S "tool_use"
      | _ => false) &&
     (match jsGet cb (S "input") with
      | some inp => truthy inp && decide (jsKeysLength inp = 0)
      | none => false)) ||
    ((match jsGet cb (S "type") with
      | some (.str t) => t = S "text"
      | _ => false) &&
     (match jsGet cb (S "text") with
      | some (.str t) => t.isEmpty
      | _ => false))
  | none => false

/-- Whether a `data:` line's payload parses as JSON and satisfies the drop
condition (a parse failure keeps the line). -/
def isDroppableData (line : List Char) : Bool :=
  match jsonParse (jsTrim (line.drop 5)) with
  | some d => dropCondition d
  | none => false

/-- The event-name update at the top of the filter loop: an `event:` line
installs its trimmed name (`line.substring(6).trim()`), any other line
leaves the current name. -/
def nextEvent (currentEvent line : List Char) : List Char :=
  if (S "event:").isPrefixOf line then jsTrim (line.drop 6) else currentEvent

/-- The filter's line loop (extension.ts 665-710), with its two pieces of
state: the current event name and the skip flag. -/
def filterCore (currentEvent : List Char) (shouldSkip : Bool) :
    List (List Char) → List (List Char)
  | [] => []
  | line :: rest =>
    let ev := nextEvent currentEvent line
    let skip := if (S "event:").isPrefixOf line then false else shouldSkip
    if (S "data:").isPrefixOf line ∧ ev = S "content_block_start" ∧
        isDroppableData line = true then
      filterCore ev true rest
    else
      (if skip then [] else [line]) ++
        filterCore (if line = [] ∧ skip = false then [] else ev) skip rest

/-- `filterLiteLLMChunk` from the source: split the chunk on newlines, run
the filter loop, rejoin retained lines with newlines. -/
def filterLiteLLMChunk (chunk : List Char) : List Char :=
  joinWithChar '\n' (filterCore [] false (splitOnChar '\n' chunk))

/-! ## Retry supervisor (`fetchWithRetry`, extension.ts 623-654)

The two possible transport calls are passed in as oracles
(`Except`: `.error` models a thrown fetch error); the restart of the
supervised process and the settle wait are recorded in the trace. -/

structure RetryTrace (R : Type) where
  result : Except (List Char) R
  attempts : Nat
  restartedCliproxyapi : Bool
  settleWaitMs : Nat

/-- `fetchWithRetry` from the source: on a thrown first attempt, only a
`'cliproxyapi'` provider triggers stop/start, a 2000 ms settle wait and a
single retry whose outcome (success or rethrown failure) is final; every
other provider rethrows the first failure immediately. -/
def fetchWithRetry {R : Type} (firstAttempt secondAttempt : Except (List Char) R)
    (provider : List Char) : RetryTrace R :=
  match firstAttempt with
  | .ok r => { result := .ok r, attempts := 1, restartedCliproxyapi := false, settleWaitMs := 0 }
  | .error e =>
    if provider = S "cliproxyapi" then
      { result := secondAttempt, attempts := 2, restartedCliproxyapi := true,
        settleWaitMs := 2000 }
    else
      { result := .error e, attempts := 1, restartedCliproxyapi := false, settleWaitMs := 0 }

/-! ## Response object and the audit call sites (extension.ts 400-426,
877-1021)

`ResState` models the Node `http.ServerResponse`: `writeHead` throws
`ERR_HTTP_HEADERS_SENT` once headers are out, `end` after `end` fails, and
everything written to the caller is recorded in order. -/

inductive WriteEvent where
  | head (status : Nat)
  | chunk (bytes : List Char)
  | endResponse
deriving DecidableEq

structure ResState where
  headersSent : Bool
  ended : Bool
  written : List WriteEvent
deriving DecidableEq

def resInit : ResState :=
  { headersSent := false, ended := false, written := [] }

def writeHeadM (st : ResState) (status : Nat) : Except (List Char) ResState :=
  if st.headersSent then .error (S "ERR_HTTP_HEADERS_SENT")
  else .ok { headersSent := true, ended := st.ended,
             written := st.written ++ [.head status] }

def resWrite (st : ResState) (bytes : List Char) : ResState :=
  { st with written := st.written ++ [.chunk bytes] }

def resEndM (st : ResState) (bytes : Option (List Char)) : Except (List Char) ResState :=
  if st.ended then .error (S "ERR_STREAM_ALREADY_FINISHED")
  else .ok { headersSent := true, ended := true,
             written := st.written ++
               (match bytes with | some b => [.chunk b] | none => []) ++ [.endResponse] }

/-- `saveLog` (extension.ts 400-426): returns at once when JSON logging is
disabled; otherwise the `fs` write may throw, and nothing inside `saveLog`
catches it.  `fsWriteThrows` is the oracle for the filesystem failure. -/
def saveLog (enableJsonLogging fsWriteThrows : Bool) : Except (List Char) Unit :=
  if enableJsonLogging = false then .ok ()
  else if fsWriteThrows then .error (S "log write failed")
  else .ok ()

/-- Body of the synthetic error response,
`JSON.stringify(\x7b error: error.message \x7d)`. -/
def errorBody (msg : List Char) : List Char :=
  stringify (.obj [(S "error", .str msg)])

/-- The handler's `catch` block (extension.ts 1005-1008): write a 500 and
the JSON error body.  If `writeHead` itself throws (headers already sent),
that exception escapes the handler: the second component is the uncaught
error. -/
def catchBlock (st : ResState) (msg : List Char) : ResState × Option (List Char) :=
  match writeHeadM st 500 with
  | .error e => (st, some e)
  | .ok st1 =>
    match resEndM st1 (some (errorBody msg)) with
    | .error e => (st1, some e)
    | .ok st2 => (st2, none)

/-- The success path of the request handler after the upstream response
arrived (extension.ts 919-1003): relay status and chunks, end the
response, then `await saveLog(...)`.  A `saveLog` rejection lands in the
handler's outer `catch`, which then tries to write a 500 on the
already-ended response. -/
def proxySuccessTail (status : Nat) (chunks : List (List Char))
    (enableJsonLogging fsWriteThrows : Bool) : ResState × Option (List Char) :=
  match writeHeadM resInit status with
  | .error e => catchBlock resInit e
  | .ok st1 =>
    let st2 := chunks.foldl resWrite st1
    match resEndM st2 none with
    | .error e => catchBlock st2 e
    | .ok st3 =>
      match saveLog enableJsonLogging fsWriteThrows with
      | .error e => catchBlock st3 e
      | .ok _ => (st3, none)

/-- The failure path of the request handler (extension.ts 1005-1021): the
`catch` block writes the synthetic 500, then calls `saveLog` with no
further catch around it, so a `saveLog` rejection escapes the handler. -/
def proxyCatchTail (msg : List Char) (enableJsonLogging fsWriteThrows : Bool) :
    ResState × Option (List Char) :=
  match writeHeadM resInit 500 with
  | .error e => (resInit, some e)
  | .ok st1 =>
    match resEndM st1 (some (errorBody msg)) with
    | .error e => (st1, some e)
    | .ok st2 =>
      match saveLog enableJsonLogging fsWriteThrows with
      | .error e => (st2, some e)
      | .ok _ => (st2, none)

/-! ## Request transformation and routing (extension.ts 804-898) -/

structure MappingInfo where
  originalModel : List Char
  targetModel : Option (List Char)
  endpoint : List Char
  modelType : ModelType
  provider : List Char
deriving DecidableEq

/-- What the handler takes into the outbound call: URL, body, the auth
headers it set, and the provider tag driving the retry and filter
policies. -/
structure RouteResult where
  targetUrl : List Char
  targetBody : List Char
  targetHeaders : List (List Char × List Char)
  currentProvider : List Char
  mappingInfo : Option MappingInfo
deriving DecidableEq

def defaultUpstream : List Char :=
  S "https://api.anthropic.com"

/-- The handler's defaults (extension.ts 816-820): default upstream URL
with the original path, original body bytes, no extra headers, provider
tag `'pass'`, no mapping info. -/
def passThroughRoute (reqUrl body : List Char) : RouteResult :=
  { targetUrl := defaultUpstream ++ reqUrl, targetBody := body,
    targetHeaders := [], currentProvider := S "pass", mappingInfo := none }

/-- The body-parsing and mapping part of the request handler (extension.ts
804-873).  `.error ()` models the `TypeError` thrown by
`modelName.toLowerCase()` when the body's `model` field is truthy but not
a string; every falsy or absent `model`, and every unparseable body, takes
the pass-through defaults without consulting the mapping. -/
def routeRequest (cfg : Config) (reqUrl body : List Char) : Except Unit RouteResult :=
  match jsonParse body with
  | none => .ok (passThroughRoute reqUrl body)
  | some requestBody =>
    match requestBody with
    | .obj fields =>
      match lookupKey fields (S "model") with
      | none => .ok (passThroughRoute reqUrl body)
      | some modelVal =>
        if truthy modelVal then
          match modelVal with
          | .str originalModel =>
            let modelType := extractModelType originalModel
            match getTargetConfig cfg modelType with
            | none => .ok (passThroughRoute reqUrl body)
            | some tc =>
              let mapping := mappingOf cfg modelType
              let currentProvider :=
                if mapping = S "pass" then S "pass"
                else (splitOnChar ':' mapping).headD []
              let mi : MappingInfo :=
                { originalModel := originalModel, targetModel := tc.model,
                  endpoint := tc.endpoint, modelType := modelType,
                  provider := currentProvider }
              let newBody :=
                match tc.model with
                | some tm =>
                  if tm = [] then body
                  else stringify (.obj (setKey fields (S "model") (.str tm)))
                | none => body
              .ok { targetUrl := tc.endpoint ++ reqUrl, targetBody := newBody,
                    targetHeaders := buildAuthHeaders tc,
                    currentProvider := currentProvider, mappingInfo := some mi }
          | _ => .error ()
        else .ok (passThroughRoute reqUrl body)
    | _ => .ok (passThroughRoute reqUrl body)

/-! ## Specification-side predicates and concrete instances used by the
theorems below -/

/-- The specification's reading of the classification rule: the model
identifier contains the letters of `haiku` in some letter case, i.e. it
has an infix whose (ASCII) lower-casing is exactly `haiku`. -/
def MentionsHaiku (modelName : List Char) : Prop :=
  ∃ t, t <:+: modelName ∧ t.map Char.toLower = S "haiku"

/-- The provider names `getTargetConfig` recognizes. -/
def recognizedProvider (p : List Char) : Bool :=
  p = S "anthropic" || p = S "glm" || p = S "kimi" || p = S "minimax" ||
  p = S "deepseek" || p = S "custom" || p = S "litellm" || p = S "cliproxyapi"

/-- The `enabled` flag `getTargetConfig` consults for a provider name
(false for unrecognized names). -/
def providerEnabled (cfg : Config) (p : List Char) : Bool :=
  if p = S "anthropic" then cfg.anthropic.enabled
  else if p = S "glm" then cfg.glm.enabled
  else if p = S "kimi" then cfg.kimi.enabled
  else if p = S "minimax" then cfg.minimax.enabled
  else if p = S "deepseek" then cfg.deepseek.enabled
  else if p = S "custom" then cfg.custom.enabled
  else if p = S "litellm" then cfg.litellm.enabled
  else if p = S "cliproxyapi" then cfg.cliproxyapi.enabled
  else false

/-- A configuration with every provider disabled and both mappings on
pass-through; the concrete configurations below override single fields. -/
def cfg0 : Config :=
  { mappingsHaiku := S "pass", mappingsMain := S "pass",
    anthropic := ⟨false, []⟩, glm := ⟨false, []⟩, kimi := ⟨false, []⟩,
    minimax := ⟨false, []⟩, deepseek := ⟨false, []⟩, custom := ⟨false, []⟩,
    litellm := ⟨false, []⟩, cliproxyapi := ⟨false, []⟩,
    customBaseUrl := S "https://api.siliconflow.cn",
    litellmPort := 4100, cliproxyapiPort := 4200 }

/-- Main mapping `custom:a:b` (a model name containing a colon), custom
provider enabled. -/
def cfgC3 : Config :=
  { cfg0 with mappingsMain := S "custom:a:b", custom := ⟨true, S "k"⟩ }

/-- Main mapping to Anthropic with an empty configured API key. -/
def cfgC4 : Config :=
  { cfg0 with mappingsMain := S "anthropic:m", anthropic := ⟨true, []⟩ }

/-- Main mapping to a disabled provider. -/
def cfgC6 : Config :=
  { cfg0 with mappingsMain := S "glm:g" }

/-- Main mapping `glm:Y` with GLM enabled and credential `k1`. -/
def cfgGlm : Config :=
  { cfg0 with mappingsMain := S "glm:Y", glm := ⟨true, S "k1"⟩ }

/-- Main mapping to LiteLLM with a non-empty credential. -/
def cfgLite : Config :=
  { cfg0 with mappingsMain := S "litellm:m", litellm := ⟨true, S "sk"⟩ }

/-- The target `cfgC4` resolves to: Anthropic's endpoint with an empty
configured API key. -/
def tcC4 : TargetConfig :=
  { endpoint := S "https://api.anthropic.com", model := some (S "m"),
    apiKey := some [], authMethod := some .xApiKey }

/-- How the handler's auth-header block treats a resolved target, stated
per auth method: bearer-token targets always carry a non-empty credential
and attach it as `authorization: Bearer`; API-key-header targets carry
the configured credential and attach it under `x-api-key` only when it is
non-empty; targets with no auth method attach nothing. -/
def AuthHeaderSpec (tc : TargetConfig) : Prop :=
  (tc.authMethod = some .token →
    ∃ k, tc.apiKey = some k ∧ k ≠ [] ∧
      buildAuthHeaders tc = [(S "authorization", S "Bearer " ++ k)]) ∧
  (tc.authMethod = some .xApiKey →
    ∃ k, tc.apiKey = some k ∧
      buildAuthHeaders tc = (if k = [] then [] else [(S "x-api-key", k)])) ∧
  (tc.authMethod = none → buildAuthHeaders tc = [])

/-- An event-stream chunk whose first event is an empty `text`
`content_block_start` followed by an ordinary `ping` event. -/
def c2chunk : List Char :=
  S "event: content_block_start\ndata: \x7b\"content_block\":\x7b\"type\":\"text\",\"text\":\"\"\x7d\x7d\n\nevent: ping\ndata: \x7b\"type\":\"ping\"\x7d\n"

/-- A request body with a `model` field and a space before another field's
value. -/
def c7body : List Char :=
  S "\x7b\"model\":\"X\",\"a\": 1\x7d"

/-- The parsed fields of `c7body`. -/
def c7fields : List (List Char × JVal) :=
  [(S "model", .str (S "X")), (S "a", .num 1)]

/-- The target `cfgGlm` resolves to. -/
def tcGlm : TargetConfig :=
  { endpoint := S "https://open.bigmodel.cn/api/anthropic", model := some (S "Y"),
    apiKey := some (S "k1"), authMethod := some .xApiKey }

/-- The mapping record the handler builds for `cfgGlm` and `c7body`. -/
def miGlm : MappingInfo :=
  { originalModel := S "X", targetModel := some (S "Y"),
    endpoint := S "https://open.bigmodel.cn/api/anthropic",
    modelType := .main, provider := S "glm" }

/-- The forward envelope the handler builds for `cfgGlm` and `c7body`:
note the rewritten body carries no space before the `1`. -/
def rrGlm : RouteResult :=
  { targetUrl := S "https://open.bigmodel.cn/api/anthropic/v1/messages",
    targetBody := S "\x7b\"model\":\"Y\",\"a\":1\x7d",
    targetHeaders := [(S "x-api-key", S "k1")],
    currentProvider := S "glm",
    mappingInfo := some miGlm }

/-- The event-name tracking of the filter loop under the assumption that
nothing is skipped: each line is paired with the event name in effect when
the loop examines it (`event:` lines update it first, blank lines reset it
afterwards). -/
def trackPairs (currentEvent : List Char) :
    List (List Char) → List (List Char × List Char)
  | [] => []
  | line :: rest =>
    (nextEvent currentEvent line, line) ::
      trackPairs (if line = [] then [] else nextEvent currentEvent line) rest

/-- A `data:` line whose payload parses and satisfies the drop condition
while the tracked event is `content_block_start` — the exact situation in
which the filter loop discards lines. -/
def dropTriggered (p : List Char × List Char) : Bool :=
  (S "data:").isPrefixOf p.2 && decide (p.1 = S "content_block_start") &&
    isDroppableData p.2

/-- An event-stream chunk with a non-empty text `content_block_start` and
a `ping` event: nothing in it triggers the drop condition. -/
def c10chunk : List Char :=
  S "event: content_block_start\ndata: \x7b\"content_block\":\x7b\"type\":\"text\",\"text\":\"hi\"\x7d\x7d\n\nevent: ping\n\n"

/-! ## Library lemmas about the string helpers -/

theorem splitOnChar_ne_nil (sep : Char) (l : List Char) : splitOnChar sep l ≠ [] := by
  cases l with
  | nil => simp [splitOnChar]
  | cons c cs =>
    simp only [splitOnChar]
    split
    · simp
    · split <;> simp

theorem joinWithChar_cons_of_ne_nil (sep : Char) (l : List Char)
    (L : List (List Char)) (h : L ≠ []) :
    joinWithChar sep (l :: L) = l ++ sep :: joinWithChar sep L := by
  cases L with
  | nil => exact absurd rfl h
  | cons m ms => rfl

/-- JavaScript `split` followed by `join` with the same separator is the
identity. -/
theorem joinWithChar_splitOnChar (sep : Char) (l : List Char) :
    joinWithChar sep (splitOnChar sep l) = l := by
  induction l with
  | nil => rfl
  | cons c cs ih =>
    simp only [splitOnChar]
    by_cases hc : c = sep
    · rw [if_pos hc, joinWithChar_cons_of_ne_nil sep [] _ (splitOnChar_ne_nil sep cs), ih, hc]
      rfl
    · rw [if_neg hc]
      rcases he : splitOnChar sep cs with _ | ⟨m, ms⟩
      · exact absurd he (splitOnChar_ne_nil sep cs)
      · rw [he] at ih
        cases ms with
        | nil => simpa [joinWithChar] using ih
        | cons m2 ms2 =>
          rw [joinWithChar_cons_of_ne_nil sep (c :: m) _ (by simp),
            joinWithChar_cons_of_ne_nil sep m _ (by simp)] at *
          simpa using ih

/-- The first segment of a split is everything before the first separator. -/
theorem splitOnChar_headD (sep : Char) (l : List Char) :
    (splitOnChar sep l).headD [] = l.takeWhile (fun c => !(c = sep)) := by
  induction l with
  | nil => rfl
  | cons c cs ih =>
    simp only [splitOnChar, List.takeWhile]
    by_cases hc : c = sep
    · simp [hc]
    · rw [if_neg hc]
      rcases he : splitOnChar sep cs with _ | ⟨m, ms⟩
      · exact absurd he (splitOnChar_ne_nil sep cs)
      · rw [he] at ih
        simp only [List.headD] at ih
        simp [hc, ih]

/-- The second segment of a split: the text strictly between the first
separator and the following separator (or the end), and nothing when the
separator does not occur at all. -/
theorem splitOnChar_getElem1 (sep : Char) (l : List Char) :
    (splitOnChar sep l)[1]? =
      (if sep ∈ l then
        some (((l.dropWhile (fun c => !(c = sep))).drop 1).takeWhile (fun c => !(c = sep)))
      else none) := by
  induction l with
  | nil => simp [splitOnChar]
  | cons c cs ih =>
    simp only [splitOnChar]
    by_cases hc : c = sep
    · subst hc
      simp only [if_pos rfl, List.mem_cons, true_or, if_pos]
      have h1 : (([] : List Char) :: splitOnChar c cs)[1]? = (splitOnChar c cs)[0]? := by
        simp
      rw [h1]
      have h2 : (splitOnChar c cs)[0]? = some ((splitOnChar c cs).headD []) := by
        rcases he : splitOnChar c cs with _ | ⟨m, ms⟩
        · exact absurd he (splitOnChar_ne_nil c cs)
        · simp
      rw [h2, splitOnChar_headD]
      simp [List.dropWhile]
    · rw [if_neg hc]
      rcases he : splitOnChar sep cs with _ | ⟨m, ms⟩
      · exact absurd he (splitOnChar_ne_nil sep cs)
      · rw [he] at ih
        have hmem : sep ∈ c :: cs ↔ sep ∈ cs := by
          constructor
          · intro h
            rcases List.mem_cons.mp h with h | h
            · exact absurd h.symm hc
            · exact h
          · exact fun h => List.mem_cons.mpr (Or.inr h)
        have harr : ((c :: m) :: ms)[1]? = (m :: ms)[1]? := rfl
        rw [harr, ih]
        by_cases hs : sep ∈ cs
        · rw [if_pos hs, if_pos (hmem.mpr hs)]
          simp [List.dropWhile, hc]
        · rw [if_neg hs, if_neg (fun h => hs (hmem.mp h))]

/-- Splitting a string of the shape `p ++ sep :: m` where `p` is
separator-free peels off `p` as the first segment. -/
theorem splitOnChar_append (sep : Char) (p m : List Char) (hp : sep ∉ p) :
    splitOnChar sep (p ++ sep :: m) = p :: splitOnChar sep m := by
  induction p with
  | nil => simp [splitOnChar]
  | cons c cs ih =>
    have hc : ¬(c = sep) := fun h => hp (by simp [h])
    have hcs : sep ∉ cs := fun h => hp (List.mem_cons.mpr (Or.inr h))
    simp only [List.cons_append, splitOnChar, if_neg hc, List.append_eq, ih hcs]

/-- `containsSub` (the model of `String.prototype.includes`) decides the
infix relation. -/
theorem containsSub_iff (needle l : List Char) :
    containsSub needle l = true ↔ needle <:+: l := by
  induction l with
  | nil =>
    simp only [containsSub, List.isEmpty_iff]
    constructor
    · intro h
      simp [h]
    · intro h
      simpa using List.eq_nil_of_infix_nil h
  | cons c cs ih =>
    simp only [containsSub, Bool.or_eq_true, List.isPrefixOf_iff_prefix, ih]
    exact (List.infix_cons_iff).symm

/-- An infix of a mapped list is the image of an infix of the list. -/
theorem exists_infix_of_infix_map (f : Char → Char) (a l : List Char)
    (h : a <:+: l.map f) : ∃ t, t <:+: l ∧ t.map f = a := by
  obtain ⟨s, u, hsu⟩ := h
  have hmap : l.map f = s ++ (a ++ u) := by
    rw [← hsu, List.append_assoc]
  obtain ⟨s', r', rfl, hs', hr'⟩ := List.map_eq_append_iff.mp hmap
  obtain ⟨a', u', rfl, ha', hu'⟩ := List.map_eq_append_iff.mp hr'
  exact ⟨a', ⟨s', u', by rw [List.append_assoc]⟩, ha'⟩

/-! ## C9: model classification -/

/-- C9 (confirmed).  For every model identifier containing the substring
`"haiku"` in any letter case, `extractModelType` yields `haiku`; for every
other identifier it yields `main`. -/
theorem extractModelType_classifies (modelName : List Char) :
    (extractModelType modelName = .haiku ↔ MentionsHaiku modelName) ∧
    (extractModelType modelName = .main ↔ ¬ MentionsHaiku modelName) := by
  have key : containsSub (S "haiku") (modelName.map Char.toLower) = true ↔
      MentionsHaiku modelName := by
    rw [containsSub_iff]
    constructor
    · intro h
      exact exists_infix_of_infix_map Char.toLower _ _ h
    · rintro ⟨t, hinf, hmap⟩
      have := hinf.map Char.toLower
      rwa [hmap] at this
  have hdef : extractModelType modelName =
      (if containsSub (S "haiku") (modelName.map Char.toLower) = true then
        ModelType.haiku else ModelType.main) := rfl
  by_cases hc : containsSub (S "haiku") (modelName.map Char.toLower) = true
  · rw [hdef, if_pos hc]
    simp [key.mp hc]
  · rw [hdef, if_neg hc]
    have : ¬ MentionsHaiku modelName := fun hm => hc (key.mpr hm)
    simp [this]

/-! ## C1: retry supervisor -/

/-- C1 (counterexample).  A transport-level failure against the `litellm`
provider — one of the two locally supervised kinds — is propagated
immediately: one attempt, no restart, no settle wait, even though a retry
(had one happened, as the claim asserts) would have succeeded. -/
theorem litellm_transport_error_not_retried :
    fetchWithRetry (R := Nat) (.error (S "ECONNREFUSED")) (.ok 200) (S "litellm") =
      { result := .error (S "ECONNREFUSED"), attempts := 1,
        restartedCliproxyapi := false, settleWaitMs := 0 } := by
  rfl

/-- C1 (amended).  Only the `cliproxyapi` provider gets the stop/restart,
2000 ms settle wait and single retry on a thrown first attempt (the
retry's outcome, success or rethrown failure, is final); a successful
first attempt is returned as-is, and every other provider — `litellm`
included — propagates the first transport failure with no restart and no
retry. -/
theorem fetchWithRetry_policy {R : Type} (first second : Except (List Char) R)
    (provider : List Char) (e : List Char) (r : R) :
    (first = .ok r → fetchWithRetry first second provider =
      { result := .ok r, attempts := 1, restartedCliproxyapi := false,
        settleWaitMs := 0 }) ∧
    (first = .error e → provider = S "cliproxyapi" →
      fetchWithRetry first second provider =
      { result := second, attempts := 2, restartedCliproxyapi := true,
        settleWaitMs := 2000 }) ∧
    (first = .error e → provider ≠ S "cliproxyapi" →
      fetchWithRetry first second provider =
      { result := .error e, attempts := 1, restartedCliproxyapi := false,
        settleWaitMs := 0 }) := by
  refine ⟨fun h1 => ?_, fun h1 h2 => ?_, fun h1 h2 => ?_⟩
  · subst h1
    rfl
  · subst h1
    simp only [fetchWithRetry, if_pos h2]
  · subst h1
    simp only [fetchWithRetry, if_neg h2]

/-- Witness for `fetchWithRetry_policy`: the cliproxyapi restart-and-retry
case at a concrete failing first attempt. -/
theorem fetchWithRetry_policy_witness :
    fetchWithRetry (R := Nat) (.error (S "boom")) (.ok 7) (S "cliproxyapi") =
      { result := .ok 7, attempts := 2, restartedCliproxyapi := true,
        settleWaitMs := 2000 } :=
  (fetchWithRetry_policy (R := Nat) (.error (S "boom")) (.ok 7)
    (S "cliproxyapi") (S "boom") 7).2.1 rfl rfl

/-! ## C3 and C6: mapping resolution -/

/-- C3 (counterexample).  With the main mapping `custom:a:b` — a model
name that itself contains a colon — resolution succeeds but the resolved
model is `a`, the segment between the first and second colon, not the full
remainder `a:b` the claim promises. -/
theorem mapping_second_colon_counterexample :
    getTargetConfig cfgC3 .main =
      some { endpoint := S "https://api.siliconflow.cn", model := some (S "a"),
             apiKey := some (S "k"), authMethod := some .xApiKey } ∧
    some (S "a") ≠ some (S "a:b") := by
  constructor
  · rfl
  · decide

/-- Every target produced by the provider dispatch carries the
destructured second segment as its model verbatim. -/
theorem providerTarget_model (cfg : Config) (p : List Char)
    (m : Option (List Char)) (tc : TargetConfig)
    (h : providerTarget cfg p m = some tc) : tc.model = m := by
  unfold providerTarget at h
  by_cases h1 : p = S "anthropic"
  · rw [if_pos h1] at h
    by_cases e1 : cfg.anthropic.enabled
    · rw [if_pos e1] at h
      cases h
      rfl
    · rw [if_neg e1] at h
      cases h
  · rw [if_neg h1] at h
    by_cases h2 : p = S "glm"
    · rw [if_pos h2] at h
      by_cases e2 : cfg.glm.enabled
      · rw [if_pos e2] at h
        cases h
        rfl
      · rw [if_neg e2] at h
        cases h
    · rw [if_neg h2] at h
      by_cases h3 : p = S "kimi"
      · rw [if_pos h3] at h
        by_cases e3 : cfg.kimi.enabled
        · rw [if_pos e3] at h
          cases h
          rfl
        · rw [if_neg e3] at h
          cases h
      · rw [if_neg h3] at h
        by_cases h4 : p = S "minimax"
        · rw [if_pos h4] at h
          by_cases e4 : cfg.minimax.enabled
          · rw [if_pos e4] at h
            cases h
            rfl
          · rw [if_neg e4] at h
            cases h
        · rw [if_neg h4] at h
          by_cases h5 : p = S "deepseek"
          · rw [if_pos h5] at h
            by_cases e5 : cfg.deepseek.enabled
            · rw [if_pos e5] at h
              cases h
              rfl
            · rw [if_neg e5] at h
              cases h
          · rw [if_neg h5] at h
            by_cases h6 : p = S "custom"
            · rw [if_pos h6] at h
              by_cases e6 : cfg.custom.enabled
              · rw [if_pos e6] at h
                cases h
                rfl
              · rw [if_neg e6] at h
                cases h
            · rw [if_neg h6] at h
              by_cases h7 : p = S "litellm"
              · rw [if_pos h7] at h
                by_cases e7 : cfg.litellm.enabled
                · rw [if_pos e7] at h
                  cases h
                  rfl
                · rw [if_neg e7] at h
                  cases h
              · rw [if_neg h7] at h
                by_cases h8 : p = S "cliproxyapi"
                · rw [if_pos h8] at h
                  by_cases e8 : cfg.cliproxyapi.enabled
                  · rw [if_pos e8] at h
                    cases h
                    rfl
                  · rw [if_neg e8] at h
                    cases h
                · rw [if_neg h8] at h
                  cases h

/-- C3 (amended).  `mapping.split(':')` splits at every colon and the
destructuring keeps only the first two segments, so for every resolved
target the model is the text strictly between the first colon and the next
colon (or the end of the string) — anything after a second colon is
dropped — and it is absent when the mapping contains no colon at all. -/
theorem resolved_model_is_second_segment (cfg : Config) (mt : ModelType)
    (tc : TargetConfig) (h : getTargetConfig cfg mt = some tc) :
    tc.model =
      (if ':' ∈ mappingOf cfg mt then
        some ((((mappingOf cfg mt).dropWhile (fun c => !(c = ':'))).drop 1).takeWhile
          (fun c => !(c = ':')))
      else none) := by
  rw [← splitOnChar_getElem1 ':' (mappingOf cfg mt)]
  unfold getTargetConfig at h
  by_cases hpass : mappingOf cfg mt = S "pass"
  · rw [if_pos hpass] at h
    cases h
  · rw [if_neg hpass] at h
    exact providerTarget_model cfg _ _ tc h

/-- Witness for `resolved_model_is_second_segment` at the concrete mapping
`custom:a:b`. -/
theorem resolved_model_is_second_segment_witness :
    ({ endpoint := S "https://api.siliconflow.cn", model := some (S "a"),
       apiKey := some (S "k"), authMethod := some .xApiKey } : TargetConfig).model =
      (if ':' ∈ mappingOf cfgC3 .main then
        some ((((mappingOf cfgC3 .main).dropWhile (fun c => !(c = ':'))).drop 1).takeWhile
          (fun c => !(c = ':')))
      else none) :=
  resolved_model_is_second_segment cfgC3 .main _ rfl

/-- A provider name that is unrecognized, or recognized but disabled,
makes the provider dispatch return `none`, whatever the target model. -/
theorem providerTarget_not_enabled (cfg : Config) (p : List Char)
    (m : Option (List Char))
    (hdis : recognizedProvider p = true → providerEnabled cfg p = false) :
    providerTarget cfg p m = none := by
  unfold providerTarget
  by_cases h1 : p = S "anthropic"
  · rw [if_pos h1]
    have he : cfg.anthropic.enabled = false := by
      have hd := hdis (by rw [h1]; rfl)
      rw [h1] at hd
      exact hd
    rw [he]
    rfl
  · rw [if_neg h1]
    by_cases h2 : p = S "glm"
    · rw [if_pos h2]
      have he : cfg.glm.enabled = false := by
        have hd := hdis (by rw [h2]; rfl)
        rw [h2] at hd
        exact hd
      rw [he]
      rfl
    · rw [if_neg h2]
      by_cases h3 : p = S "kimi"
      · rw [if_pos h3]
        have he : cfg.kimi.enabled = false := by
          have hd := hdis (by rw [h3]; rfl)
          rw [h3] at hd
          exact hd
        rw [he]
        rfl
      · rw [if_neg h3]
        by_cases h4 : p = S "minimax"
        · rw [if_pos h4]
          have he : cfg.minimax.enabled = false := by
            have hd := hdis (by rw [h4]; rfl)
            rw [h4] at hd
            exact hd
          rw [he]
          rfl
        · rw [if_neg h4]
          by_cases h5 : p = S "deepseek"
          · rw [if_pos h5]
            have he : cfg.deepseek.enabled = false := by
              have hd := hdis (by rw [h5]; rfl)
              rw [h5] at hd
              exact hd
            rw [he]
            rfl
          · rw [if_neg h5]
            by_cases h6 : p = S "custom"
            · rw [if_pos h6]
              have he : cfg.custom.enabled = false := by
                have hd := hdis (by rw [h6]; rfl)
                rw [h6] at hd
                exact hd
              rw [he]
              rfl
            · rw [if_neg h6]
              by_cases h7 : p = S "litellm"
              · rw [if_pos h7]
                have he : cfg.litellm.enabled = false := by
                  have hd := hdis (by rw [h7]; rfl)
                  rw [h7] at hd
                  exact hd
                rw [he]
                rfl
              · rw [if_neg h7]
                by_cases h8 : p = S "cliproxyapi"
                · rw [if_pos h8]
                  have he : cfg.cliproxyapi.enabled = false := by
                    have hd := hdis (by rw [h8]; rfl)
                    rw [h8] at hd
                    exact hd
                  rw [he]
                  rfl
                · rw [if_neg h8]

/-- C6 (confirmed).  A mapping `p:m` whose provider `p` is unrecognized or
disabled resolves to `none` — pass-through — and resolution is a total
function, so it never raises. -/
theorem unknown_or_disabled_provider_resolves_none (cfg : Config)
    (mt : ModelType) (p m : List Char)
    (hmap : mappingOf cfg mt = p ++ ':' :: m) (hp : ':' ∉ p)
    (hdis : recognizedProvider p = true → providerEnabled cfg p = false) :
    getTargetConfig cfg mt = none := by
  have hpass : ¬(mappingOf cfg mt = S "pass") := by
    rw [hmap]
    intro hcontra
    have hmem : ':' ∈ p ++ ':' :: m :=
      List.mem_append.mpr (Or.inr (List.mem_cons_self _ _))
    rw [hcontra] at hmem
    exact absurd hmem (by decide)
  unfold getTargetConfig
  rw [if_neg hpass, hmap, splitOnChar_append ':' p m hp]
  exact providerTarget_not_enabled cfg p _ hdis

/-- Witness for `unknown_or_disabled_provider_resolves_none`: mapping
`glm:g` with the GLM provider disabled resolves to pass-through. -/
theorem unknown_or_disabled_provider_resolves_none_witness :
    getTargetConfig cfgC6 .main = none :=
  unknown_or_disabled_provider_resolves_none cfgC6 .main (S "glm") (S "g")
    rfl (by decide) (fun _ => rfl)

/-! ## C4: auth header policy -/

/-- C4 (counterexample).  Anthropic — an API-key-header provider — with an
empty configured credential resolves to a target whose auth block attaches
no header at all, against the claim that such providers always attach the
configured credential under `x-api-key`. -/
theorem empty_api_key_attaches_no_header :
    getTargetConfig cfgC4 .main = some tcC4 ∧ tcC4.authMethod = some .xApiKey ∧
      tcC4.apiKey = some [] ∧ buildAuthHeaders tcC4 = [] :=
  ⟨rfl, rfl, rfl, rfl⟩

theorem authHeaderSpec_xapikey (ep : List Char) (m : Option (List Char))
    (k : List Char) : AuthHeaderSpec ⟨ep, m, some k, some .xApiKey⟩ := by
  refine ⟨fun htok => ?_, fun _ => ⟨k, rfl, ?_⟩, fun hnone => ?_⟩
  · exact AuthMethod.noConfusion (Option.some.inj htok)
  · by_cases hk : k = [] <;> simp [buildAuthHeaders, hk]
  · exact Option.noConfusion hnone

theorem authHeaderSpec_token (ep : List Char) (m : Option (List Char))
    (k : List Char) (hk : ¬(k = [])) : AuthHeaderSpec ⟨ep, m, some k, some .token⟩ := by
  refine ⟨fun _ => ⟨k, rfl, hk, ?_⟩, fun hx => ?_, fun hnone => ?_⟩
  · simp [buildAuthHeaders, hk]
  · exact AuthMethod.noConfusion (Option.some.inj hx)
  · exact Option.noConfusion hnone

theorem authHeaderSpec_noauth (ep : List Char) (m : Option (List Char)) :
    AuthHeaderSpec ⟨ep, m, none, none⟩ := by
  refine ⟨fun htok => Option.noConfusion htok, fun hx => Option.noConfusion hx,
    fun _ => rfl⟩

/-- Every target the provider dispatch produces satisfies the auth-header
policy. -/
theorem providerTarget_authSpec (cfg : Config) (p : List Char)
    (m : Option (List Char)) (tc : TargetConfig)
    (h : providerTarget cfg p m = some tc) : AuthHeaderSpec tc := by
  unfold providerTarget at h
  by_cases h1 : p = S "anthropic"
  · rw [if_pos h1] at h
    by_cases e1 : cfg.anthropic.enabled
    · rw [if_pos e1] at h
      cases h
      exact authHeaderSpec_xapikey _ _ _
    · rw [if_neg e1] at h
      cases h
  · rw [if_neg h1] at h
    by_cases h2 : p = S "glm"
    · rw [if_pos h2] at h
      by_cases e2 : cfg.glm.enabled
      · rw [if_pos e2] at h
        cases h
        exact authHeaderSpec_xapikey _ _ _
      · rw [if_neg e2] at h
        cases h
    · rw [if_neg h2] at h
      by_cases h3 : p = S "kimi"
      · rw [if_pos h3] at h
        by_cases e3 : cfg.kimi.enabled
        · rw [if_pos e3] at h
          cases h
          exact authHeaderSpec_xapikey _ _ _
        · rw [if_neg e3] at h
          cases h
      · rw [if_neg h3] at h
        by_cases h4 : p = S "minimax"
        · rw [if_pos h4] at h
          by_cases e4 : cfg.minimax.enabled
          · rw [if_pos e4] at h
            cases h
            exact authHeaderSpec_xapikey _ _ _
          · rw [if_neg e4] at h
            cases h
        · rw [if_neg h4] at h
          by_cases h5 : p = S "deepseek"
          · rw [if_pos h5] at h
            by_cases e5 : cfg.deepseek.enabled
            · rw [if_pos e5] at h
              cases h
              exact authHeaderSpec_xapikey _ _ _
            · rw [if_neg e5] at h
              cases h
          · rw [if_neg h5] at h
            by_cases h6 : p = S "custom"
            · rw [if_pos h6] at h
              by_cases e6 : cfg.custom.enabled
              · rw [if_pos e6] at h
                cases h
                exact authHeaderSpec_xapikey _ _ _
              · rw [if_neg e6] at h
                cases h
            · rw [if_neg h6] at h
              by_cases h7 : p = S "litellm"
              · rw [if_pos h7] at h
                by_cases e7 : cfg.litellm.enabled
                · rw [if_pos e7] at h
                  by_cases ha : cfg.litellm.apiKey = []
                  · simp only [ha, if_pos] at h
                    cases h
                    exact authHeaderSpec_noauth _ _
                  · simp only [if_neg ha] at h
                    cases h
                    exact authHeaderSpec_token _ _ _ ha
                · rw [if_neg e7] at h
                  cases h
              · rw [if_neg h7] at h
                by_cases h8 : p = S "cliproxyapi"
                · rw [if_pos h8] at h
                  by_cases e8 : cfg.cliproxyapi.enabled
                  · rw [if_pos e8] at h
                    by_cases ha : cfg.cliproxyapi.apiKey = []
                    · simp only [ha, if_pos] at h
                      cases h
                      exact authHeaderSpec_noauth _ _
                    · simp only [if_neg ha] at h
                      cases h
                      exact authHeaderSpec_token _ _ _ ha
                  · rw [if_neg e8] at h
                    cases h
                · rw [if_neg h8] at h
                  cases h

/-- C4 (amended).  The auth header of every resolved target follows the
method, with attachment gated on JavaScript truthiness of the credential:
API-key-header providers carry the configured credential and attach it
under `x-api-key` only when it is non-empty (an empty configured
credential attaches nothing); bearer-token providers have a credential
exactly when it is non-empty and then attach `authorization: Bearer`;
targets with no declared auth method attach nothing. -/
theorem auth_header_policy (cfg : Config) (mt : ModelType) (tc : TargetConfig)
    (h : getTargetConfig cfg mt = some tc) : AuthHeaderSpec tc := by
  unfold getTargetConfig at h
  by_cases hpass : mappingOf cfg mt = S "pass"
  · rw [if_pos hpass] at h
    cases h
  · rw [if_neg hpass] at h
    exact providerTarget_authSpec cfg _ _ tc h

/-- Witness for `auth_header_policy` at the concrete LiteLLM target with a
non-empty bearer credential. -/
theorem auth_header_policy_witness :
    AuthHeaderSpec ⟨S "http://127.0.0.1:4100", some (S "m"),
      some (S "sk"), some .token⟩ :=
  auth_header_policy cfgLite .main _ rfl

/-! ## C5: audit failures -/

/-- C5 (counterexample).  With JSON logging enabled and the log write
throwing, the success path's `saveLog` rejection is not discarded at its
call site: it reaches the handler's outer catch, whose
`res.writeHead(500)` on the already-sent response throws, and that
exception escapes the handler uncaught — while the same request with a
healthy log write leaves no uncaught error. -/
theorem audit_failure_escapes_handler :
    (proxySuccessTail 200 [S "ok"] true true).2 = some (S "ERR_HTTP_HEADERS_SENT") ∧
    (proxySuccessTail 200 [S "ok"] true false).2 = none :=
  ⟨rfl, rfl⟩

/-- Relaying chunks only appends to the recorded writes; it never touches
the header or end flags. -/
theorem foldl_resWrite_spec (chunks : List (List Char)) (st : ResState) :
    List.foldl resWrite st chunks =
      ⟨st.headersSent, st.ended, st.written ++ chunks.map WriteEvent.chunk⟩ := by
  induction chunks generalizing st with
  | nil => simp
  | cons c cs ih =>
    simp only [List.foldl_cons, ih, resWrite]
    simp

/-- Closed form of the success path: the caller always receives the full
relayed response (head, chunks, end); a `saveLog` rejection only adds an
uncaught `ERR_HTTP_HEADERS_SENT` escaping from the outer catch. -/
theorem proxySuccessTail_spec (status : Nat) (chunks : List (List Char))
    (ejl fsT : Bool) :
    proxySuccessTail status chunks ejl fsT =
      (match saveLog ejl fsT with
       | .error _ =>
        (⟨true, true, WriteEvent.head status :: chunks.map WriteEvent.chunk ++
          [WriteEvent.endResponse]⟩, some (S "ERR_HTTP_HEADERS_SENT"))
       | .ok _ =>
        (⟨true, true, WriteEvent.head status :: chunks.map WriteEvent.chunk ++
          [WriteEvent.endResponse]⟩, none)) := by
  simp only [proxySuccessTail, writeHeadM, resInit, foldl_resWrite_spec, resEndM,
    catchBlock, saveLog]
  cases ejl <;> cases fsT <;> simp [writeHeadM, catchBlock]

/-- Closed form of the failure path: the synthetic 500 with the JSON error
body is always delivered; a `saveLog` rejection afterwards escapes the
handler directly. -/
theorem proxyCatchTail_spec (msg : List Char) (ejl fsT : Bool) :
    proxyCatchTail msg ejl fsT =
      (match saveLog ejl fsT with
       | .error e =>
        (⟨true, true, [WriteEvent.head 500, WriteEvent.chunk (errorBody msg),
          WriteEvent.endResponse]⟩, some e)
       | .ok _ =>
        (⟨true, true, [WriteEvent.head 500, WriteEvent.chunk (errorBody msg),
          WriteEvent.endResponse]⟩, none)) := by
  cases ejl <;> cases fsT <;> rfl

/-- C5 (amended).  A failing audit write never alters what is delivered to
the caller — the response is fully relayed and ended before `saveLog`
runs, on the success and failure paths alike — but the failure is not
caught and discarded at the call site: on the success path it falls into
the handler's outer catch, whose `writeHead(500)` throws
`ERR_HTTP_HEADERS_SENT` that escapes uncaught, and on the failure path it
escapes the handler directly. -/
theorem audit_failure_response_unchanged (status : Nat)
    (chunks : List (List Char)) (msg : List Char) (ejl fsT : Bool) :
    ((proxySuccessTail status chunks ejl fsT).1 =
      (proxySuccessTail status chunks ejl false).1) ∧
    ((proxyCatchTail msg ejl fsT).1 = (proxyCatchTail msg ejl false).1) ∧
    (ejl = true → fsT = true →
      (proxySuccessTail status chunks ejl fsT).2 =
        some (S "ERR_HTTP_HEADERS_SENT") ∧
      (proxyCatchTail msg ejl fsT).2 = some (S "log write failed")) := by
  refine ⟨?_, ?_, fun h1 h2 => ?_⟩
  · rw [proxySuccessTail_spec, proxySuccessTail_spec]
    cases ejl <;> cases fsT <;> rfl
  · rw [proxyCatchTail_spec, proxyCatchTail_spec]
    cases ejl <;> cases fsT <;> rfl
  · subst h1
    subst h2
    rw [proxySuccessTail_spec, proxyCatchTail_spec]
    exact ⟨rfl, rfl⟩

/-- Witness for `audit_failure_response_unchanged` with logging enabled
and a throwing log write. -/
theorem audit_failure_response_unchanged_witness :
    (proxySuccessTail 200 [S "relayed"] true true).2 =
      some (S "ERR_HTTP_HEADERS_SENT") ∧
    (proxyCatchTail (S "boom") true true).2 = some (S "log write failed") :=
  (audit_failure_response_unchanged 200 [S "relayed"] (S "boom") true true).2.2
    rfl rfl

/-! ## C7 and C8: body transformation -/

/-- Setting a field makes it the value found at its key. -/
theorem lookupKey_setKey_self (fs : List (List Char × JVal)) (k : List Char)
    (v : JVal) : lookupKey (setKey fs k v) k = some v := by
  induction fs with
  | nil => simp [setKey, lookupKey]
  | cons f fs ih =>
    obtain ⟨k', v'⟩ := f
    by_cases h : k' = k
    · simp [setKey, h, lookupKey]
    · simp [setKey, h, lookupKey, ih]

/-- Setting a field leaves every other key's lookup unchanged. -/
theorem lookupKey_setKey_ne (fs : List (List Char × JVal)) (k : List Char)
    (v : JVal) (k' : List Char) (h : ¬(k' = k)) :
    lookupKey (setKey fs k v) k' = lookupKey fs k' := by
  have h2 : ¬(k = k') := fun hk => h hk.symm
  induction fs with
  | nil => simp [setKey, lookupKey, h2]
  | cons f fs ih =>
    obtain ⟨k0, v0⟩ := f
    by_cases h0 : k0 = k
    · subst h0
      simp [setKey, lookupKey, h2]
    · simp [setKey, h0, lookupKey, ih]

/-- C7 (counterexample).  Under the mapping `glm:Y`, the body
`{"model":"X","a": 1}` is re-serialized by `JSON.stringify`, which
normalizes the space in front of the `1`: the outbound body is not the
input with only the model value changed, so the other field is not
byte-for-byte preserved. -/
theorem rewrite_not_byte_identical :
    routeRequest cfgGlm (S "/v1/messages") c7body = .ok rrGlm ∧
    ¬(rrGlm.targetBody = S "\x7b\"model\":\"Y\",\"a\": 1\x7d") :=
  ⟨rfl, by decide⟩

/-- C7 (amended).  A mapped body is the compact `JSON.stringify`
serialization of the parsed input object with its `model` field set to the
target model: the `model` field equals the target and every other field is
preserved as a parsed JSON value (lookups at all other keys are
unchanged), but the bytes are re-serialized, not preserved verbatim. -/
theorem rewrite_preserves_other_fields (cfg : Config) (reqUrl body : List Char)
    (fields : List (List Char × JVal)) (x y : List Char) (tc : TargetConfig)
    (hparse : jsonParse body = some (.obj fields))
    (hmodel : lookupKey fields (S "model") = some (.str x)) (hx : ¬(x = []))
    (htc : getTargetConfig cfg (extractModelType x) = some tc)
    (hy : tc.model = some y) (hyne : ¬(y = [])) :
    ∃ r, routeRequest cfg reqUrl body = .ok r ∧
      r.targetBody = stringify (.obj (setKey fields (S "model") (.str y))) ∧
      lookupKey (setKey fields (S "model") (.str y)) (S "model") =
        some (.str y) ∧
      (∀ k, ¬(k = S "model") →
        lookupKey (setKey fields (S "model") (.str y)) k = lookupKey fields k) := by
  have ht : truthy (.str x) = true := by
    simp [truthy, hx]
  simp only [routeRequest, hparse, hmodel, ht, if_true, htc, hy, if_neg hyne]
  exact ⟨_, rfl, rfl, lookupKey_setKey_self _ _ _,
    fun k hk => lookupKey_setKey_ne _ _ _ _ hk⟩

/-- Witness for `rewrite_preserves_other_fields` at `cfgGlm` and
`c7body`. -/
theorem rewrite_preserves_other_fields_witness :
    ∃ r, routeRequest cfgGlm (S "/v1/messages") c7body = .ok r ∧
      r.targetBody = stringify (.obj (setKey c7fields (S "model") (.str (S "Y")))) ∧
      lookupKey (setKey c7fields (S "model") (.str (S "Y"))) (S "model") =
        some (.str (S "Y")) ∧
      (∀ k, ¬(k = S "model") →
        lookupKey (setKey c7fields (S "model") (.str (S "Y"))) k =
          lookupKey c7fields k) :=
  rewrite_preserves_other_fields cfgGlm (S "/v1/messages") c7body c7fields
    (S "X") (S "Y") tcGlm rfl rfl (by decide) rfl rfl (by decide)

/-- C8 (counterexample).  With a live main mapping (`glm:Y`, GLM enabled)
and an unparseable body, the request goes to the default upstream with no
mapping info at all — the main mapping, though resolvable, is not applied,
against the claim that classification defaults to `main` with the
corresponding mapping behavior applied. -/
theorem unparseable_body_ignores_mapping :
    routeRequest cfgGlm (S "/v1/messages") (S "not json") =
      .ok (passThroughRoute (S "/v1/messages") (S "not json")) ∧
    (passThroughRoute (S "/v1/messages") (S "not json")).targetUrl =
      S "https://api.anthropic.com/v1/messages" ∧
    (passThroughRoute (S "/v1/messages") (S "not json")).mappingInfo = none ∧
    getTargetConfig cfgGlm .main = some tcGlm ∧
    ¬(S "https://api.anthropic.com/v1/messages" =
      S "https://open.bigmodel.cn/api/anthropic/v1/messages") :=
  ⟨rfl, rfl, rfl, rfl, by decide⟩

/-- C8 (amended).  For a body that is unparseable JSON or parses without a
`model` field, the original bytes are forwarded unchanged to the default
upstream with no extra headers and no mapping info: no classification
happens and the mapping is never consulted. -/
theorem unparseable_or_modelless_body_passthrough (cfg : Config)
    (reqUrl body : List Char)
    (h : jsonParse body = none ∨
      ∃ rb, jsonParse body = some rb ∧ jsGet rb (S "model") = none) :
    routeRequest cfg reqUrl body = .ok (passThroughRoute reqUrl body) := by
  rcases h with h | ⟨rb, hp, hg⟩
  · simp only [routeRequest, h]
  · cases rb with
    | obj fs =>
      have hl : lookupKey fs (S "model") = none := hg
      simp only [routeRequest, hp, hl]
    | null => simp only [routeRequest, hp]
    | bool b => simp only [routeRequest, hp]
    | num n => simp only [routeRequest, hp]
    | str s => simp only [routeRequest, hp]
    | arr es => simp only [routeRequest, hp]

/-- Witness for `unparseable_or_modelless_body_passthrough` on a body that
is not JSON. -/
theorem unparseable_or_modelless_body_passthrough_witness :
    routeRequest cfg0 (S "/p") (S "nope") =
      .ok (passThroughRoute (S "/p") (S "nope")) :=
  unparseable_or_modelless_body_passthrough cfg0 (S "/p") (S "nope") (Or.inl rfl)

/-! ## C2 and C10: stream filter -/

theorem not_event_line_of_data_line (l : List Char)
    (h : (S "data:").isPrefixOf l = true) : (S "event:").isPrefixOf l = false := by
  cases l with
  | nil => rfl
  | cons c cs =>
    have hc : c = 'd' := by
      have := List.isPrefixOf_iff_prefix.mp h
      obtain ⟨t, ht⟩ := this
      cases ht
      rfl
    subst hc
    rfl

theorem not_data_line_of_event_line (l : List Char)
    (h : (S "event:").isPrefixOf l = true) : (S "data:").isPrefixOf l = false := by
  cases l with
  | nil => rfl
  | cons c cs =>
    have hc : c = 'e' := by
      have := List.isPrefixOf_iff_prefix.mp h
      obtain ⟨t, ht⟩ := this
      cases ht
      rfl
    subst hc
    rfl

theorem event_line_ne_nil (l : List Char)
    (h : (S "event:").isPrefixOf l = true) : ¬(l = []) := by
  intro hl
  subst hl
  exact Bool.noConfusion h

/-- An `event:` line always passes through: it resets the skip flag before
the keep decision is made, so it is retained whatever the previous
state. -/
theorem filterCore_cons_event (ev : List Char) (sk : Bool) (l : List Char)
    (rest : List (List Char)) (h : (S "event:").isPrefixOf l = true) :
    filterCore ev sk (l :: rest) =
      l :: filterCore (jsTrim (l.drop 6)) false rest := by
  have hd := not_data_line_of_event_line l h
  have hnil := event_line_ne_nil l h
  simp [filterCore, nextEvent, h, hd, hnil]

/-- A droppable `data:` line under a `content_block_start` event is
discarded and turns the skip flag on. -/
theorem filterCore_cons_data_drop (sk : Bool) (l : List Char)
    (rest : List (List Char)) (h : (S "data:").isPrefixOf l = true)
    (hdrop : isDroppableData l = true) :
    filterCore (S "content_block_start") sk (l :: rest) =
      filterCore (S "content_block_start") true rest := by
  have he := not_event_line_of_data_line l h
  simp [filterCore, nextEvent, he, h, hdrop]

/-- While the skip flag is on, every line up to the next `event:` line is
discarded. -/
theorem filterCore_cons_nonevent_skip (ev : List Char) (l : List Char)
    (rest : List (List Char)) (h : (S "event:").isPrefixOf l = false) :
    filterCore ev true (l :: rest) = filterCore ev true rest := by
  simp only [filterCore, nextEvent, h, Bool.false_eq_true, if_false]
  by_cases hc : (S "data:").isPrefixOf l = true ∧ ev = S "content_block_start" ∧
      isDroppableData l = true
  · rw [if_pos hc]
  · rw [if_neg hc]
    simp

/-- C2 (counterexample).  On a chunk whose first event is an empty-text
`content_block_start`, the filter keeps that event's `event:` line (only
the `data:` line and the blank line are dropped), so the output differs
from the claim's, which omits all three framing lines. -/
theorem filter_keeps_event_line :
    filterLiteLLMChunk c2chunk =
      S "event: content_block_start\nevent: ping\ndata: \x7b\"type\":\"ping\"\x7d\n" ∧
    ¬(S "event: content_block_start\nevent: ping\ndata: \x7b\"type\":\"ping\"\x7d\n" =
      S "event: ping\ndata: \x7b\"type\":\"ping\"\x7d\n") :=
  ⟨rfl, by decide⟩

/-- C2 (amended).  When a `content_block_start` event's `data:` payload is
an empty `tool_use` or empty `text` block, the filter drops the `data:`
line and the lines after it up to the next `event:` line — the blank
terminator included — but the `event:` line itself passes through; the
remaining events are then processed as usual. -/
theorem filter_drops_data_and_blank_keeps_event (dl : List Char)
    (rest : List (List Char))
    (hd : (S "data:").isPrefixOf dl = true)
    (hdrop : isDroppableData dl = true)
    (hrest : rest = [] ∨ ∃ r rs, rest = r :: rs ∧ (S "event:").isPrefixOf r = true) :
    filterCore [] false (S "event: content_block_start" :: dl :: [] :: rest) =
      S "event: content_block_start" :: filterCore [] false rest := by
  rw [filterCore_cons_event [] false _ _ (by decide)]
  have hjt : jsTrim ((S "event: content_block_start").drop 6) =
      S "content_block_start" := by decide
  rw [hjt]
  rw [filterCore_cons_data_drop false dl _ hd hdrop]
  rw [filterCore_cons_nonevent_skip _ [] _ (by decide)]
  rcases hrest with rfl | ⟨r, rs, rfl, hr⟩
  · rfl
  · rw [filterCore_cons_event _ true r rs hr, filterCore_cons_event [] false r rs hr]

/-- Witness for `filter_drops_data_and_blank_keeps_event` on a concrete
empty `tool_use` block. -/
theorem filter_drops_data_and_blank_keeps_event_witness :
    filterCore [] false (S "event: content_block_start" ::
        S "data: \x7b\"content_block\":\x7b\"type\":\"tool_use\",\"input\":\x7b\x7d\x7d\x7d" :: [] :: []) =
      S "event: content_block_start" :: filterCore [] false [] :=
  filter_drops_data_and_blank_keeps_event _ [] (by decide) (by decide) (Or.inl rfl)

/-- The filter loop started with the skip flag off keeps every line when
no tracked `data:` line triggers the drop condition. -/
theorem filterCore_id_of_no_drop (lines : List (List Char)) : ∀ ev,
    (∀ p ∈ trackPairs ev lines, dropTriggered p = false) →
    filterCore ev false lines = lines := by
  induction lines with
  | nil =>
    intro ev _
    rfl
  | cons l ls ih =>
    intro ev h
    have hstep : trackPairs ev (l :: ls) =
        (nextEvent ev l, l) :: trackPairs (if l = [] then [] else nextEvent ev l) ls := rfl
    have hhead : dropTriggered (nextEvent ev l, l) = false := by
      apply h
      rw [hstep]
      exact List.mem_cons_self _ _
    have htail : ∀ p ∈ trackPairs (if l = [] then [] else nextEvent ev l) ls,
        dropTriggered p = false := by
      intro p hp
      apply h
      rw [hstep]
      exact List.mem_cons_of_mem _ hp
    have hcond : ¬((S "data:").isPrefixOf l = true ∧
        nextEvent ev l = S "content_block_start" ∧ isDroppableData l = true) := by
      rintro ⟨h1, h2, h3⟩
      rw [dropTriggered] at hhead
      simp [h1, h2, h3] at hhead
    have hrec := ih (if l = [] then [] else nextEvent ev l) htail
    simp only [filterCore, ite_self]
    rw [if_neg hcond]
    simp [hrec]

/-- C10 (confirmed).  On a chunk in which no `data:` line parses to a
droppable payload under a tracked `content_block_start` event, the filter
is the identity on the chunk: splitting on newlines, keeping every line
and rejoining with newlines reconstructs the input exactly. -/
theorem filter_identity_of_no_droppable (chunk : List Char)
    (h : ∀ p ∈ trackPairs [] (splitOnChar '\n' chunk), dropTriggered p = false) :
    filterLiteLLMChunk chunk = chunk := by
  unfold filterLiteLLMChunk
  rw [filterCore_id_of_no_drop (splitOnChar '\n' chunk) [] h,
    joinWithChar_splitOnChar]

/-- Witness for `filter_identity_of_no_droppable` on a chunk with a
non-empty text block and a `ping` event. -/
theorem filter_identity_of_no_droppable_witness :
    filterLiteLLMChunk c10chunk = c10chunk :=
  filter_identity_of_no_droppable c10chunk (by decide)

end ClaudeProxy
